import Mathlib

/-!
# BasicLRU.c

A verification development for `src/BasicLRU.c`, a C program whose `main`
opens the file "A", writes a fixed string to it, reads from it and closes it.

* Part I embeds `main` as a function over an abstract world that answers the
  library calls `open`, `write`, `read`, `close` and `printf`.
* Part II gives two worlds: an oracle that answers calls arbitrarily, and a
  small POSIX file model (descriptor table, access modes, file offsets).
* Part III is the bounded LRU cache of the design document, which has no
  counterpart in the C file and is modelled from the words of that document.
* Part IV holds the theorems.
-/

set_option linter.unusedVariables false
set_option linter.unusedSectionVars false

namespace BasicLRU

/-! ## Part I: the embedding of `main` -/

/-- Modelled from the spec: the access-mode constant `O_RDONLY` comes from
`<fcntl.h>`, which is missing from src/; this is its Linux value. -/
def O_RDONLY : Nat := 0

/-- Modelled from the spec: the access-mode constant `O_WRONLY` comes from
`<fcntl.h>`, which is missing from src/; this is its Linux value. -/
def O_WRONLY : Nat := 1

/-- Modelled from the spec: the access-mode constant `O_RDWR` comes from
`<fcntl.h>`, which is missing from src/; this is its Linux value. -/
def O_RDWR : Nat := 2

/-- Modelled from the spec: the mask `O_ACCMODE` comes from `<fcntl.h>`, which
is missing from src/; this is its Linux value. -/
def O_ACCMODE : Nat := 3

/-- Modelled from the spec: the flag `O_CREAT` comes from `<fcntl.h>`, which
is missing from src/; this is its Linux value, octal 0100. -/
def O_CREAT : Nat := 64

/-- A reference to a block of writable memory: what a `char *` designates
once a buffer has been bound to it. -/
structure BufRef where
  addr : Nat
  size : Nat
deriving DecidableEq, Repr

/-- An argument passed to `printf` after the format string. -/
inductive Arg where
  | int (v : Int)
  | ptr (p : Option BufRef)
deriving DecidableEq, Repr

/-- The library calls made by `main`, with the values of their arguments.
A `char *` that points at a string literal is passed as that string; a
`char *` destination is an optional buffer reference, `none` when no buffer
was ever bound to the pointer. -/
inductive Call where
  | sys_open (path : String) (flags : Nat)
  | sys_write (fd : Int) (buf : String) (count : Nat)
  | sys_read (fd : Int) (dst : Option BufRef) (count : Nat)
  | sys_close (fd : Int)
  | printf (fmt : String) (args : List Arg)
deriving DecidableEq, Repr

/-- A call together with the value it returned. -/
structure Event where
  call : Call
  ret : Int
deriving DecidableEq, Repr

/-- A world answers a call with a return value and moves to a new state. -/
abbrev World (σ : Type) : Type := Call → σ → Int × σ

/-- C `strlen`: the number of characters before the first NUL. -/
def strlen (s : String) : Nat :=
  (s.toList.takeWhile (fun c => decide (c ≠ Char.ofNat 0))).length

/-- The function `main` of `src/BasicLRU.c`, statement by statement. The
return values of `write`, `close` and both `printf` calls are discarded, as in
the source; control reaches the closing brace of `main`, which returns 0. -/
def main {σ : Type} (sys : World σ) (w : σ) : Int × σ :=
  -- int fd = 0;
  let fd : Int := 0
  -- printf("fd = %d\n", fd = open("A", O_CREAT));
  let r := sys (Call.sys_open "A" O_CREAT) w
  let fd : Int := r.1
  let r := sys (Call.printf "fd = %d\n" [Arg.int fd]) r.2
  -- char *buf = "Big red fox working.";
  let buf : String := "Big red fox working."
  -- write(fd, (void *)buf, strlen(buf));
  let r := sys (Call.sys_write fd buf (strlen buf)) r.2
  -- char *read_buf;
  let read_buf : Option BufRef := none
  -- ssize_t read_bytes = read(fd, read_buf, strlen(buf));
  let r := sys (Call.sys_read fd read_buf (strlen buf)) r.2
  let read_bytes : Int := r.1
  -- printf("read: %ld %s", read_bytes, read_buf);
  let r := sys (Call.printf "read: %ld %s" [Arg.int read_bytes, Arg.ptr read_buf]) r.2
  -- close(fd);
  let r := sys (Call.sys_close fd) r.2
  (0, r.2)

/-! ## Part II: worlds -/

/-- Wrap a world so that every call is recorded with its return value. -/
def logged {σ : Type} (sys : World σ) : World (σ × List Event) :=
  fun c s =>
    let r := sys c s.1
    (r.1, (r.2, s.2 ++ [Event.mk c r.1]))

/-- An environment chooses the return value of the n-th call. -/
abbrev Env : Type := Nat → Call → Int

/-- The oracle world: the state counts the calls made so far, the environment
picks every return value. -/
def oracle (env : Env) : World Nat :=
  fun c n => (env n c, n + 1)

/-- The value `main` returns when the environment is `env`. -/
def mainResult (env : Env) : Int :=
  (main (logged (oracle env)) (0, [])).1

/-- The calls `main` makes, in order, when the environment is `env`. -/
def mainTrace (env : Env) : List Event :=
  (main (logged (oracle env)) (0, [])).2.2

/-- The calls that operate on files: everything but `printf`. -/
def isFileOp : Call → Bool
  | Call.printf _ _ => false
  | _ => true

/-- The file operations of a trace. -/
def fileOps (tr : List Event) : List Event :=
  tr.filter (fun e => isFileOp e.call)

/-- The descriptor a call operates on, if it takes one. -/
def usesFd : Call → Option Int
  | Call.sys_write fd _ _ => some fd
  | Call.sys_read fd _ _ => some fd
  | Call.sys_close fd => some fd
  | _ => none

def isOpen : Call → Bool
  | Call.sys_open _ _ => true
  | _ => false

def isWrite : Call → Bool
  | Call.sys_write _ _ _ => true
  | _ => false

def isRead : Call → Bool
  | Call.sys_read _ _ _ => true
  | _ => false

def isClose : Call → Bool
  | Call.sys_close _ => true
  | _ => false

/-- The destination of a `read` call. -/
def readDst : Call → Option (Option BufRef)
  | Call.sys_read _ dst _ => some dst
  | _ => none

/-- The flags of an `open` call. -/
def openFlags : Call → Option Nat
  | Call.sys_open _ flags => some flags
  | _ => none

/-- The arguments of a `printf` call after the format string. -/
def printfArgs : Call → Option (List Arg)
  | Call.printf _ args => some args
  | _ => none

/-- The six calls of `main` under `env`, spelled out. -/
def expectedTrace (env : Env) : List Event :=
  let c0 := Call.sys_open "A" O_CREAT
  let fd := env 0 c0
  let c1 := Call.printf "fd = %d\n" [Arg.int fd]
  let c2 := Call.sys_write fd "Big red fox working." 20
  let c3 := Call.sys_read fd none 20
  let c4 := Call.printf "read: %ld %s" [Arg.int (env 3 c3), Arg.ptr none]
  let c5 := Call.sys_close fd
  [Event.mk c0 fd, Event.mk c1 (env 1 c1), Event.mk c2 (env 2 c2),
   Event.mk c3 (env 3 c3), Event.mk c4 (env 4 c4), Event.mk c5 (env 5 c5)]

/-- An environment in which every call fails with -1. -/
def envAllFail : Env := fun _ _ => -1

/-- An environment in which every call succeeds: `open` yields descriptor 3,
`write` and `read` transfer the full count, `close` yields 0. -/
def envAllOk : Env := fun _ c =>
  match c with
  | Call.sys_open _ _ => 3
  | Call.sys_write _ _ n => n
  | Call.sys_read _ _ n => n
  | Call.sys_close _ => 0
  | Call.printf fmt _ => fmt.length

/-- A regular file: its bytes, and whether the calling process may read and
write it. -/
structure FileData where
  content : List Char
  readable : Bool
  writable : Bool
deriving DecidableEq, Repr

/-- An open file description: the file it refers to, the file offset and the
access mode it was opened with. -/
structure OpenFile where
  path : String
  offset : Nat
  accmode : Nat
deriving DecidableEq, Repr

/-- The state of the POSIX file model. `files` and `fds` are association
lists read by first match. `createReadable` and `createWritable` are the
permissions a file ends up with when it is created by an `open` that passes no
mode argument. `mem` records the bytes delivered into buffers by `read`, and
`stdout` what was handed to `printf`; standard output is a stream of its own. -/
structure PosixState where
  files : List (String × FileData)
  fds : List (Nat × OpenFile)
  maxFds : Nat
  canCreate : Bool
  createReadable : Bool
  createWritable : Bool
  mem : List (BufRef × List Char)
  stdout : List (String × List Arg)

/-- The bytes of the file at `path`, if it exists. -/
def fileContent (s : PosixState) (path : String) : Option (List Char) :=
  (List.lookup path s.files).map (fun f => f.content)

/-- The lowest descriptor number that is not in use, below the limit. -/
def freeFd (s : PosixState) : Option Nat :=
  (List.range s.maxFds).find? (fun n => (List.lookup n s.fds).isNone)

/-- The open file description behind a descriptor, if it is open. -/
def descriptor (s : PosixState) (fd : Int) : Option OpenFile :=
  if fd < 0 then none else List.lookup fd.toNat s.fds

/-- Whether the permissions of a file allow opening it with access mode
`acc`. -/
def permits (f : FileData) (acc : Nat) : Bool :=
  (acc == O_WRONLY || f.readable) && (acc == O_RDONLY || f.writable)

/-- Whether a descriptor with access mode `acc` was opened for writing. -/
def openedForWriting (acc : Nat) : Bool :=
  acc == O_WRONLY || acc == O_RDWR

/-- Overwrite `data` into `content` at `offset`, padding a gap with NULs. -/
def writeAt (content : List Char) (offset : Nat) (data : List Char) : List Char :=
  content.take offset ++ List.replicate (offset - content.length) (Char.ofNat 0)
    ++ data ++ content.drop (offset + data.length)

/-- POSIX `open` for the flags this model knows: an access mode and
`O_CREAT`. A new descriptor starts at offset 0. -/
def posix_open (path : String) (flags : Nat) (s : PosixState) : Int × PosixState :=
  match freeFd s with
  | none => (-1, s)
  | some n =>
    let acc := flags &&& O_ACCMODE
    match List.lookup path s.files with
    | some f =>
      if permits f acc then
        ((n : Int), { s with fds := (n, OpenFile.mk path 0 acc) :: s.fds })
      else (-1, s)
    | none =>
      if flags &&& O_CREAT != 0 && s.canCreate then
        ((n : Int),
          { s with
            files := (path, FileData.mk [] s.createReadable s.createWritable) :: s.files
            fds := (n, OpenFile.mk path 0 acc) :: s.fds })
      else (-1, s)

/-- POSIX `write`: the bytes go to the current offset, which advances by the
number of bytes written. When `strict` is set, a descriptor that was not
opened for writing is refused; when it is not, every open descriptor is
treated as writable. -/
def posix_write (strict : Bool) (fd : Int) (buf : String) (count : Nat)
    (s : PosixState) : Int × PosixState :=
  match descriptor s fd with
  | none => (-1, s)
  | some d =>
    if strict && !openedForWriting d.accmode then (-1, s)
    else
      match List.lookup d.path s.files with
      | none => (-1, s)
      | some f =>
        let data := buf.toList.take count
        ((data.length : Int),
          { s with
            files := (d.path, { f with content := writeAt f.content d.offset data }) :: s.files
            fds := (fd.toNat, { d with offset := d.offset + data.length }) :: s.fds })

/-- POSIX `read`: the bytes come from the current offset, which advances by
the number of bytes read; at end of file the result is 0. Bytes that would be
delivered to a destination that is no buffer make the call fail. -/
def posix_read (fd : Int) (dst : Option BufRef) (count : Nat)
    (s : PosixState) : Int × PosixState :=
  match descriptor s fd with
  | none => (-1, s)
  | some d =>
    if d.accmode == O_WRONLY then (-1, s)
    else
      match List.lookup d.path s.files with
      | none => (-1, s)
      | some f =>
        let data := (f.content.drop d.offset).take count
        if data.isEmpty then (0, s)
        else
          match dst with
          | none => (-1, s)
          | some b =>
            ((data.length : Int),
              { s with
                mem := s.mem ++ [(b, data)]
                fds := (fd.toNat, { d with offset := d.offset + data.length }) :: s.fds })

/-- POSIX `close`. -/
def posix_close (fd : Int) (s : PosixState) : Int × PosixState :=
  match descriptor s fd with
  | none => (-1, s)
  | some _ => (0, { s with fds := s.fds.filter (fun x => x.1 != fd.toNat) })

/-- The POSIX world. `printf` appends to the standard output stream. -/
def posix (strict : Bool) : World PosixState :=
  fun c s =>
    match c with
    | Call.sys_open path flags => posix_open path flags s
    | Call.sys_write fd buf count => posix_write strict fd buf count s
    | Call.sys_read fd dst count => posix_read fd dst count s
    | Call.sys_close fd => posix_close fd s
    | Call.printf fmt args => (0, { s with stdout := s.stdout ++ [(fmt, args)] })

/-- The return values of the calls of a trace that satisfy `p`, in order. -/
def retsOf (p : Call → Bool) (tr : List Event) : List Int :=
  (tr.filter (fun e => p e.call)).map (fun e => e.ret)

/-- The state of the POSIX world after `main`. -/
def posixFinal (strict : Bool) (s : PosixState) : PosixState :=
  (main (logged (posix strict)) (s, [])).2.1

/-- The calls `main` makes in the POSIX world, with their results. -/
def posixTrace (strict : Bool) (s : PosixState) : List Event :=
  (main (logged (posix strict)) (s, [])).2.2

/-- A file system as a shell leaves it: descriptors 0, 1 and 2 are open on
the terminal and an empty file "A" exists. -/
def ttyFs : PosixState :=
  { files := [("/dev/tty", FileData.mk [] true true), ("A", FileData.mk [] true true)],
    fds := [(0, OpenFile.mk "/dev/tty" 0 O_RDWR), (1, OpenFile.mk "/dev/tty" 0 O_RDWR),
            (2, OpenFile.mk "/dev/tty" 0 O_RDWR)],
    maxFds := 16, canCreate := true, createReadable := true, createWritable := true,
    mem := [], stdout := [] }

/-! ## Part III: the bounded LRU cache of the design document

`src/BasicLRU.c` holds no cache. The definitions of this part follow the
words of the design document (its sections 3, 4, 6 and 7). -/

namespace LRU

/-- Modelled from the spec: the error taxonomy of section 7, with the
`EmptyIndex` failure of section 4.2; no cache code is in src/. -/
inductive Error where
  | NotFound
  | IOFailure
  | InvalidCapacity
  | ClosedCache
  | EmptyIndex
deriving DecidableEq, Repr

/-- Modelled from the spec: the Entry of section 3, a key, a value and the
sequence number of its last access; no cache code is in src/. -/
structure Entry (K V : Type) where
  key : K
  value : V
  last_access : Nat
deriving DecidableEq, Repr

/-- Modelled from the spec: the result of a Backing Channel write
(section 4.3); no cache code is in src/. -/
inductive ChanWrite where
  | Ok
  | IOFailure
deriving DecidableEq, Repr

/-- Modelled from the spec: the result of a Backing Channel read
(section 4.3); no cache code is in src/. -/
inductive ChanRead (V : Type) where
  | value (v : V)
  | NotFound
  | IOFailure
deriving DecidableEq, Repr

/-- Modelled from the spec: the Backing Channel of section 4.3 as a pair of
operations on a channel state `σ`; no cache code is in src/. -/
structure Channel (K V σ : Type) where
  write : K → V → σ → ChanWrite × σ
  read : K → σ → ChanRead V × σ

/-- Modelled from the spec: the two states of the Cache Façade
(section 4.4); no cache code is in src/. -/
inductive Phase where
  | Active
  | Closed
deriving DecidableEq, Repr

/-- Modelled from the spec: the Cache of section 3 (capacity, entries,
recency_order from least to most recently used) with the monotonic counter
that stamps accesses, the optional backing channel and the read-through
switch of section 6, and the façade state; no cache code is in src/. -/
structure Cache (K V σ : Type) where
  capacity : Nat
  entries : List (Entry K V)
  recency_order : List K
  clock : Nat
  backing : Option σ
  read_through : Bool
  state : Phase

variable {K V σ : Type} [DecidableEq K]

/-- Modelled from the spec: construction (section 6); a capacity that is not
positive is rejected with InvalidCapacity; no cache code is in src/. -/
def new_cache (capacity : Int) (backing : Option σ) (read_through : Bool) :
    Except Error (Cache K V σ) :=
  if capacity ≤ 0 then Except.error Error.InvalidCapacity
  else Except.ok
    { capacity := capacity.toNat, entries := [], recency_order := [], clock := 0,
      backing := backing, read_through := read_through, state := Phase.Active }

/-- The keys held by the Entry Store. -/
def keys (c : Cache K V σ) : List K :=
  c.entries.map (fun e => e.key)

/-- Modelled from the spec: Entry Store lookup (section 4.1); no cache code
is in src/. -/
def find (es : List (Entry K V)) (k : K) : Option (Entry K V) :=
  es.find? (fun e => decide (e.key = k))

/-- Modelled from the spec: Entry Store removal (section 4.1); no cache code
is in src/. -/
def store_remove (es : List (Entry K V)) (k : K) : List (Entry K V) :=
  es.filter (fun e => decide (e.key ≠ k))

/-- Modelled from the spec: an entry is mutated on a get (last_access only)
or on a put of an existing key (value and last_access), section 3; no cache
code is in src/. -/
def store_update (es : List (Entry K V)) (k : K) (v : Option V) (t : Nat) :
    List (Entry K V) :=
  es.map (fun e =>
    if e.key = k then
      { key := e.key, value := (match v with | some x => x | none => e.value),
        last_access := t }
    else e)

/-- Modelled from the spec: Recency Index touch (section 4.2), which moves a
key to the most-recently-used end; no cache code is in src/. -/
def touch (order : List K) (k : K) : List K :=
  order.filter (fun x => decide (x ≠ k)) ++ [k]

/-- Modelled from the spec: Recency Index evict_candidate (section 4.2), the
least-recently-used key, or EmptyIndex; no cache code is in src/. -/
def evict_candidate (order : List K) : Except Error K :=
  match order with
  | [] => Except.error Error.EmptyIndex
  | k :: _ => Except.ok k

/-- Modelled from the spec: Recency Index remove (section 4.2); no cache code
is in src/. -/
def remove (order : List K) (k : K) : List K :=
  order.filter (fun x => decide (x ≠ k))

/-- Modelled from the spec: the write-back of a victim on eviction
(sections 4.3 and 4.4), done only when a backing channel is present; the
result says whether the write succeeded; no cache code is in src/. -/
def write_back (ch : Channel K V σ) (c : Cache K V σ) (victim : K) : Bool × Option σ :=
  match c.backing, find c.entries victim with
  | some b, some e =>
    let r := ch.write e.key e.value b
    (decide (r.1 = ChanWrite.Ok), some r.2)
  | _, _ => (true, c.backing)

/-- Modelled from the spec: the insertion of a key that is not in the store
(section 4.4): at capacity the evict_candidate is flushed to the backing
channel and removed from the Entry Store and the Recency Index, then the new
entry is inserted as most recently used. A failed write-back is reported as
IOFailure while the eviction and the insertion still proceed (section 7); no
cache code is in src/. -/
def insert_new (ch : Channel K V σ) (c : Cache K V σ) (k : K) (v : V) :
    Except Error Unit × Cache K V σ :=
  if c.capacity ≤ c.entries.length then
    match evict_candidate c.recency_order with
    | Except.error e => (Except.error e, c)
    | Except.ok victim =>
      let wb := write_back ch c victim
      (if wb.1 then Except.ok () else Except.error Error.IOFailure,
        { c with
          entries := store_remove c.entries victim ++ [Entry.mk k v c.clock]
          recency_order := remove c.recency_order victim ++ [k]
          clock := c.clock + 1
          backing := wb.2 })
  else
    (Except.ok (),
      { c with
        entries := c.entries ++ [Entry.mk k v c.clock]
        recency_order := c.recency_order ++ [k]
        clock := c.clock + 1 })

/-- Modelled from the spec: façade put (sections 4.1 and 4.4): an existing
key is overwritten and touched and its previous value returned; a new key is
inserted, with eviction at capacity; a closed cache rejects the call; no
cache code is in src/. -/
def put (ch : Channel K V σ) (c : Cache K V σ) (k : K) (v : V) :
    Except Error (Option V) × Cache K V σ :=
  match c.state with
  | Phase.Closed => (Except.error Error.ClosedCache, c)
  | Phase.Active =>
    match find c.entries k with
    | some e =>
      (Except.ok (some e.value),
        { c with
          entries := store_update c.entries k (some v) c.clock
          recency_order := touch c.recency_order k
          clock := c.clock + 1 })
    | none =>
      let r := insert_new ch c k v
      (r.1.map (fun _ => none), r.2)

/-- Modelled from the spec: façade get (section 4.4): a hit touches the key
and returns its value; a miss with read-through consults the backing channel
and on success inserts the value, with eviction at capacity, and returns it;
NotFound and IOFailure of the channel are a miss; a closed cache rejects the
call; no cache code is in src/. -/
def get (ch : Channel K V σ) (c : Cache K V σ) (k : K) :
    Except Error V × Cache K V σ :=
  match c.state with
  | Phase.Closed => (Except.error Error.ClosedCache, c)
  | Phase.Active =>
    match find c.entries k with
    | some e =>
      (Except.ok e.value,
        { c with
          entries := store_update c.entries k none c.clock
          recency_order := touch c.recency_order k
          clock := c.clock + 1 })
    | none =>
      match c.read_through, c.backing with
      | true, some b =>
        match ch.read k b with
        | (ChanRead.value v, b1) =>
          let r := insert_new ch { c with backing := some b1 } k v
          (match r.1 with
            | Except.error Error.EmptyIndex => Except.error Error.EmptyIndex
            | _ => Except.ok v,
           r.2)
        | (_, b1) => (Except.error Error.NotFound, { c with backing := some b1 })
      | _, _ => (Except.error Error.NotFound, c)

/-- Modelled from the spec: writing a list of entries to the channel, in
order; the result says whether every write succeeded; no cache code is in
src/. -/
def flush_entries (ch : Channel K V σ) : List (Entry K V) → σ → Bool × σ
  | [], b => (true, b)
  | e :: es, b =>
    let r := ch.write e.key e.value b
    let rest := flush_entries ch es r.2
    (decide (r.1 = ChanWrite.Ok) && rest.1, rest.2)

/-- Modelled from the spec: façade flush (section 4.4), which writes all
current entries to the backing channel and evicts nothing; no cache code is
in src/. -/
def flush (ch : Channel K V σ) (c : Cache K V σ) : Except Error Unit × Cache K V σ :=
  match c.state with
  | Phase.Closed => (Except.error Error.ClosedCache, c)
  | Phase.Active =>
    match c.backing with
    | none => (Except.ok (), c)
    | some b =>
      let r := flush_entries ch c.entries b
      (if r.1 then Except.ok () else Except.error Error.IOFailure,
        { c with backing := some r.2 })

/-- Modelled from the spec: façade close (section 4.4): a flush, then the
transition to Closed; a second close is a no-op; no cache code is in src/. -/
def close (ch : Channel K V σ) (c : Cache K V σ) : Except Error Unit × Cache K V σ :=
  match c.state with
  | Phase.Closed => (Except.ok (), c)
  | Phase.Active =>
    let r := flush ch c
    (r.1, { r.2 with state := Phase.Closed })

/-- The calls a client can make on a cache. -/
inductive Op (K V : Type) where
  | put (k : K) (v : V)
  | get (k : K)
  | flush
  | close
deriving DecidableEq, Repr

/-- The cache after one call. -/
def step (ch : Channel K V σ) (c : Cache K V σ) : Op K V → Cache K V σ
  | Op.put k v => (put ch c k v).2
  | Op.get k => (get ch c k).2
  | Op.flush => (flush ch c).2
  | Op.close => (close ch c).2

/-- The cache after a sequence of calls. -/
def run (ch : Channel K V σ) (c : Cache K V σ) (ops : List (Op K V)) : Cache K V σ :=
  ops.foldl (step ch) c

/-- The caches a sequence of calls passes through, the initial one first. -/
def states (ch : Channel K V σ) (c : Cache K V σ) : List (Op K V) → List (Cache K V σ)
  | [] => [c]
  | op :: ops => c :: states ch (step ch c op) ops

/-- Every entry with key `a` was last accessed before every entry with key
`b`. -/
def Older (es : List (Entry K V)) (a b : K) : Prop :=
  ∀ ea ∈ es, ∀ eb ∈ es, ea.key = a → eb.key = b → ea.last_access < eb.last_access

/-- The link between the Entry Store and the Recency Index: keys are stored
once, the index lists exactly the stored keys, every access stamp is below
the counter, and the index is ordered by access stamp. -/
structure Linked (es : List (Entry K V)) (order : List K) (clock : Nat) : Prop where
  keys_nodup : (es.map (fun e => e.key)).Nodup
  order_nodup : order.Nodup
  order_keys : ∀ k, k ∈ order ↔ k ∈ es.map (fun e => e.key)
  clock_ub : ∀ e ∈ es, e.last_access < clock
  order_sorted : order.Pairwise (Older es)

/-- The invariant of a cache: a positive capacity, at most `capacity`
entries, and a store linked to its index. -/
structure Inv (c : Cache K V σ) : Prop where
  cap_pos : 0 < c.capacity
  size_le : c.entries.length ≤ c.capacity
  linked : Linked c.entries c.recency_order c.clock

/-- A backing channel kept in memory: a list of key-value pairs, read by
first match, whose writes always succeed. -/
def memChannel : Channel String Nat (List (String × Nat)) :=
  { write := fun k v b => (ChanWrite.Ok, (k, v) :: b)
    read := fun k b =>
      match List.lookup k b with
      | some v => (ChanRead.value v, b)
      | none => (ChanRead.NotFound, b) }

/-- A cache of capacity 2 with a memory channel and no read-through. -/
def cache2 : Cache String Nat (List (String × Nat)) :=
  { capacity := 2, entries := [], recency_order := [], clock := 0,
    backing := some [], read_through := false, state := Phase.Active }

/-- The scenario put(a,1), put(b,2), get(a). -/
def scenario : List (Op String Nat) :=
  [Op.put "a" 1, Op.put "b" 2, Op.get "a"]

end LRU

/-! ## Part IV: theorems -/

theorem strlen_buf : strlen "Big red fox working." = 20 := by
  decide

theorem mainTrace_eq (env : Env) : mainTrace env = expectedTrace env := by
  simp [mainTrace, expectedTrace, main, logged, oracle, strlen_buf]

theorem descriptor_neg_one (s : PosixState) : descriptor s (-1) = none := by
  simp [descriptor]

theorem descriptor_natCast (s : PosixState) (n : Nat) :
    descriptor s (n : Int) = List.lookup n s.fds := by
  simp [descriptor]

/-- The two outcomes of `open("A", O_CREAT)` in the POSIX world: failure with
the state unchanged, or a fresh read-only descriptor at offset 0 on a file
that exists afterwards. -/
theorem posix_open_A_cases (s : PosixState) :
    posix_open "A" O_CREAT s = (-1, s) ∨
    ∃ (n : Nat) (f : FileData) (files : List (String × FileData)),
      posix_open "A" O_CREAT s
        = ((n : Int), { s with files := files, fds := (n, OpenFile.mk "A" 0 O_RDONLY) :: s.fds })
      ∧ List.lookup "A" files = some f
      ∧ (fileContent s "A" = none → f.content = [])
      ∧ (∀ c, fileContent s "A" = some c → f.content = c) := by
  have h1 : (O_CREAT &&& O_CREAT != 0) = true := by decide
  have h2 : O_CREAT &&& O_ACCMODE = O_RDONLY := by decide
  unfold posix_open
  rw [h1, h2]
  cases hfd : freeFd s with
  | none => left; rfl
  | some n =>
    cases hf : List.lookup "A" s.files with
    | some f =>
      cases hp : permits f O_RDONLY with
      | true =>
        right
        refine ⟨n, f, s.files, ?_, hf, ?_, ?_⟩
        · simp [hp]
        · simp [fileContent, hf]
        · intro c hc
          simpa [fileContent, hf] using hc
      | false => left; simp [hp]
    | none =>
      cases hc : s.canCreate with
      | true =>
        right
        refine ⟨n, FileData.mk [] s.createReadable s.createWritable,
          ("A", FileData.mk [] s.createReadable s.createWritable) :: s.files, ?_, ?_, ?_, ?_⟩
        · simp [hc]
        · simp [List.lookup]
        · intro _; rfl
        · intro c hc2
          simp [fileContent, hf] at hc2
      | false => left; simp [hc]

theorem posix_write_strict_refused (s : PosixState) (fd : Int) (d : OpenFile)
    (buf : String) (count : Nat) (hd : descriptor s fd = some d)
    (hacc : openedForWriting d.accmode = false) :
    posix_write true fd buf count s = (-1, s) := by
  simp [posix_write, hd, hacc]

theorem posix_write_bad_descriptor (strict : Bool) (s : PosixState) (fd : Int)
    (buf : String) (count : Nat) (hd : descriptor s fd = none) :
    posix_write strict fd buf count s = (-1, s) := by
  simp [posix_write, hd]

theorem posix_read_files (s : PosixState) (fd : Int) (dst : Option BufRef) (count : Nat) :
    (posix_read fd dst count s).2.files = s.files := by
  unfold posix_read
  repeat (first | rfl | split | simp only [])

theorem posix_close_files (s : PosixState) (fd : Int) :
    (posix_close fd s).2.files = s.files := by
  unfold posix_close
  split <;> rfl

/-- C1: for every outcome of the calls, `main` makes exactly the calls
`open("A", O_CREAT)`, `printf`, `write(fd, "Big red fox working.", 20)`,
`read(fd, read_buf, 20)`, `printf`, `close(fd)`, so its file operations are
open, write, read, close in this order and no others; the descriptor of write,
read and close is the value `open` returned, and the count given to `read` is
the length, 20, of the string given to `write`. -/
theorem main_file_operations (env : Env) :
    mainTrace env = expectedTrace env ∧
    fileOps (mainTrace env) =
      [ Event.mk (Call.sys_open "A" O_CREAT) (env 0 (Call.sys_open "A" O_CREAT)),
        Event.mk (Call.sys_write (env 0 (Call.sys_open "A" O_CREAT)) "Big red fox working." 20)
          (env 2 (Call.sys_write (env 0 (Call.sys_open "A" O_CREAT)) "Big red fox working." 20)),
        Event.mk (Call.sys_read (env 0 (Call.sys_open "A" O_CREAT)) none 20)
          (env 3 (Call.sys_read (env 0 (Call.sys_open "A" O_CREAT)) none 20)),
        Event.mk (Call.sys_close (env 0 (Call.sys_open "A" O_CREAT)))
          (env 5 (Call.sys_close (env 0 (Call.sys_open "A" O_CREAT)))) ] ∧
    strlen "Big red fox working." = 20 := by
  refine ⟨mainTrace_eq env, ?_, strlen_buf⟩
  rw [mainTrace_eq]
  simp [expectedTrace, fileOps, isFileOp]

/-- C2: in every execution `main` calls `read` exactly once, and the
destination it passes is `none`: no buffer was bound to `read_buf` between
its declaration and the call. -/
theorem read_destination_unassigned (env : Env) :
    (mainTrace env).filterMap (fun e => readDst e.call) = [none] := by
  rw [mainTrace_eq]
  simp [expectedTrace, readDst]

/-- C6, refuted as stated: when every call fails with -1, `main` returns the
same value as when every call succeeds, and it still issues write, read and
close on the -1 that `open` returned. -/
theorem main_hides_failures :
    retsOf (fun c => isOpen c || isWrite c || isRead c) (mainTrace envAllFail) = [-1, -1, -1] ∧
    retsOf (fun c => isOpen c || isWrite c || isRead c) (mainTrace envAllOk) = [3, 20, 20] ∧
    mainResult envAllFail = mainResult envAllOk ∧
    (mainTrace envAllFail).filterMap (fun e => usesFd e.call) = [-1, -1, -1] := by
  decide

/-- C6, amended: `main` returns 0 for every outcome of the calls; write, read
and close are issued on whatever `open` returned; the values returned by
`open` and `read` are handed to `printf` and to nothing else, and the value
returned by `write` is discarded. -/
theorem main_result_ignores_failures (env : Env) :
    mainResult env = 0 ∧
    (mainTrace env).filterMap (fun e => usesFd e.call)
      = [env 0 (Call.sys_open "A" O_CREAT), env 0 (Call.sys_open "A" O_CREAT),
         env 0 (Call.sys_open "A" O_CREAT)] ∧
    (mainTrace env).filterMap (fun e => printfArgs e.call)
      = [ [Arg.int (env 0 (Call.sys_open "A" O_CREAT))],
          [Arg.int (env 3 (Call.sys_read (env 0 (Call.sys_open "A" O_CREAT)) none 20)),
           Arg.ptr none] ] := by
  refine ⟨rfl, ?_, ?_⟩
  · rw [mainTrace_eq]
    simp [expectedTrace, usesFd]
  · rw [mainTrace_eq]
    simp [expectedTrace, printfArgs]

/-- C7: in every execution the last call of `main` is `close` on the value
`open` returned, no earlier call is a `close`, and the write and the read on
that descriptor come before it: the descriptor is closed exactly once and
nothing uses it afterwards. -/
theorem close_exactly_once_and_last (env : Env) :
    ∃ (pre : List Event) (rc : Int),
      mainTrace env = pre ++ [Event.mk (Call.sys_close (env 0 (Call.sys_open "A" O_CREAT))) rc] ∧
      (∀ e ∈ pre, isClose e.call = false) ∧
      pre.filterMap (fun e => usesFd e.call)
        = [env 0 (Call.sys_open "A" O_CREAT), env 0 (Call.sys_open "A" O_CREAT)] ∧
      (mainTrace env).filter (fun e => isClose e.call)
        = [Event.mk (Call.sys_close (env 0 (Call.sys_open "A" O_CREAT))) rc] := by
  refine ⟨(expectedTrace env).take 5, env 5 (Call.sys_close (env 0 (Call.sys_open "A" O_CREAT))),
    ?_, ?_, ?_, ?_⟩
  · rw [mainTrace_eq]
    simp [expectedTrace]
  · simp [expectedTrace, isClose]
  · simp [expectedTrace, usesFd]
  · rw [mainTrace_eq]
    simp [expectedTrace, isClose]

/-- C8: the flags of the `open` call are `O_CREAT`, whose access-mode bits
are `O_RDONLY`; in the POSIX world that refuses `write` on a descriptor not
opened for writing, from every initial state the single `write` of `main`
returns -1 and the content of "A" after `main` is its content right after
the `open`. -/
theorem write_on_read_only_descriptor_fails (s : PosixState) :
    (posixTrace true s).filterMap (fun e => openFlags e.call) = [O_CREAT] ∧
    O_CREAT &&& O_ACCMODE = O_RDONLY ∧
    retsOf isWrite (posixTrace true s) = [-1] ∧
    fileContent (posixFinal true s) "A"
      = fileContent (posix true (Call.sys_open "A" O_CREAT) s).2 "A" := by
  have hacc : O_CREAT &&& O_ACCMODE = O_RDONLY := by decide
  rcases posix_open_A_cases s with h | ⟨n, f, files, h, hl, -, -⟩
  · simp only [posixTrace, posixFinal, main, logged, posix, h]
    rw [posix_write_bad_descriptor true _ _ _ _ (descriptor_neg_one _)]
    simp [retsOf, isWrite, openFlags, hacc, posix_read_files, posix_close_files, fileContent]
  · simp only [posixTrace, posixFinal, main, logged, posix, h]
    rw [posix_write_strict_refused _ _ (OpenFile.mk "A" 0 O_RDONLY) _ _
      (by simp [descriptor_natCast, List.lookup]) (by decide)]
    simp [retsOf, isWrite, openFlags, hacc, posix_read_files, posix_close_files, fileContent]

/-- C9: `main` makes no call between its `write` and its `read`. In the
POSIX world that treats every open descriptor as writable, if "A" is absent
or empty before `main` and the `open` succeeds, then the `write` stores all
20 bytes, the file holds exactly the fixed string, and the `read` that
follows starts at offset 20, the end of the file: it returns 0 and delivers no
byte to any buffer. -/
theorem read_after_write_returns_nothing (s : PosixState)
    (hempty : fileContent s "A" = none ∨ fileContent s "A" = some [])
    (hopen : 0 ≤ (posix false (Call.sys_open "A" O_CREAT) s).1) :
    (∃ (pre post : List Event) (w r : Event),
      posixTrace false s = pre ++ [w, r] ++ post ∧
      isWrite w.call = true ∧ w.ret = 20 ∧ isRead r.call = true ∧ r.ret = 0) ∧
    retsOf isWrite (posixTrace false s) = [20] ∧
    retsOf isRead (posixTrace false s) = [0] ∧
    fileContent (posixFinal false s) "A" = some "Big red fox working.".toList ∧
    (posixFinal false s).mem = s.mem := by
  have hdata : "Big red fox working.".toList.take 20
      = "Big red fox working.".toList := by decide
  have hlen : "Big red fox working.".toList.length = 20 := by decide
  rcases posix_open_A_cases s with h | ⟨n, f, files, h, hl, hnone, hsome⟩
  · simp [posix, h] at hopen
  · have hf : f.content = [] := by
      rcases hempty with he | he
      · exact hnone he
      · exact hsome _ he
    simp only [posixTrace, posixFinal, main, logged, posix, h, strlen_buf]
    have hw : ∀ (t : PosixState), t.files = files →
        t.fds = (n, OpenFile.mk "A" 0 O_RDONLY) :: s.fds →
        posix_write false (n : Int) "Big red fox working." 20 t
          = (20, { t with
              files := ("A", { f with content := "Big red fox working.".toList }) :: t.files
              fds := (n, OpenFile.mk "A" 20 O_RDONLY) :: t.fds }) := by
      intro t ht1 ht2
      simp [posix_write, descriptor_natCast, ht1, ht2, List.lookup, hl, hdata, hlen, writeAt, hf]
    have hr : ∀ (t : PosixState) (fc : FileData) (rest : List (String × FileData))
        (fds : List (Nat × OpenFile)),
        t.files = ("A", fc) :: rest → fc.content = "Big red fox working.".toList →
        t.fds = (n, OpenFile.mk "A" 20 O_RDONLY) :: fds →
        posix_read (n : Int) none 20 t = (0, t) := by
      intro t fc rest fds ht1 hc ht2
      simp [posix_read, descriptor_natCast, ht1, ht2, List.lookup, hc, hlen, O_RDONLY, O_WRONLY]
    rw [hw _ rfl rfl]
    rw [hr _ _ _ _ rfl rfl rfl]
    simp only [List.nil_append, List.singleton_append, List.cons_append]
    refine ⟨⟨[_, _], [_, _], _, _, rfl, rfl, rfl, rfl, rfl⟩, ?_, ?_, ?_, ?_⟩
    · simp [retsOf, isWrite]
    · simp [retsOf, isRead]
    · simp [fileContent, posix_close_files, List.lookup]
    · simp [posix_close]
      split <;> rfl

/-- The witness of C9: started from a shell-like state in which "A" exists and
is empty, `open` returns descriptor 3, the `write` stores 20 bytes and the
`read` returns 0. -/
theorem read_after_write_returns_nothing_witness :
    fileContent ttyFs "A" = some [] ∧
    retsOf isOpen (posixTrace false ttyFs) = [3] ∧
    retsOf isWrite (posixTrace false ttyFs) = [20] ∧
    retsOf isRead (posixTrace false ttyFs) = [0] ∧
    fileContent (posixFinal false ttyFs) "A" = some "Big red fox working.".toList :=
  ⟨by decide, by decide,
    (read_after_write_returns_nothing ttyFs (Or.inr (by decide)) (by decide)).2.1,
    (read_after_write_returns_nothing ttyFs (Or.inr (by decide)) (by decide)).2.2.1,
    (read_after_write_returns_nothing ttyFs (Or.inr (by decide)) (by decide)).2.2.2.1⟩

namespace LRU

variable {K V σ : Type} [DecidableEq K]

theorem find_eq_none_iff (es : List (Entry K V)) (k : K) :
    find es k = none ↔ k ∉ es.map (fun e => e.key) := by
  simp [find, List.find?_eq_none]

theorem find_some_mem {es : List (Entry K V)} {k : K} {e : Entry K V}
    (h : find es k = some e) : e ∈ es ∧ e.key = k := by
  refine ⟨List.mem_of_find?_eq_some h, ?_⟩
  have := List.find?_some h
  simpa using this

theorem store_update_keys (es : List (Entry K V)) (k : K) (v : Option V) (t : Nat) :
    (store_update es k v t).map (fun e => e.key) = es.map (fun e => e.key) := by
  simp only [store_update, List.map_map]
  apply List.map_congr_left
  intro e _
  by_cases h : e.key = k <;> simp [h]

theorem mem_store_update {es : List (Entry K V)} {k : K} {v : Option V} {t : Nat}
    {x : Entry K V} (h : x ∈ store_update es k v t) :
    (x ∈ es ∧ x.key ≠ k) ∨ (x.key = k ∧ x.last_access = t) := by
  simp only [store_update, List.mem_map] at h
  obtain ⟨e, he, rfl⟩ := h
  by_cases hk : e.key = k
  · right; simp [hk]
  · left; simp [hk, he]

theorem linked_update {es : List (Entry K V)} {order : List K} {clock : Nat}
    (h : Linked es order clock) (k : K) (v : Option V)
    (hk : k ∈ es.map (fun e => e.key)) :
    Linked (store_update es k v clock) (touch order k) (clock + 1) := by
  refine ⟨?_, ?_, ?_, ?_, ?_⟩
  · rw [store_update_keys]; exact h.keys_nodup
  · unfold touch
    rw [List.nodup_append]
    refine ⟨h.order_nodup.filter _, List.nodup_singleton k, ?_⟩
    intro a ha hb
    simp at ha hb
    exact ha.2 hb
  · intro a
    rw [store_update_keys]
    unfold touch
    by_cases hak : a = k
    · subst hak; simp [hk]
    · simp [hak, ← h.order_keys a]
  · intro e he
    rcases mem_store_update he with ⟨hm, _⟩ | ⟨_, ht⟩
    · exact Nat.lt_succ_of_lt (h.clock_ub e hm)
    · omega
  · unfold touch
    rw [List.pairwise_append]
    refine ⟨?_, List.pairwise_singleton _ _, ?_⟩
    · refine List.Pairwise.imp_of_mem ?_ (h.order_sorted.filter _)
      intro a b ha hb hab ea hea eb heb hka hkb
      simp at ha hb
      rcases mem_store_update hea with ⟨hma, _⟩ | ⟨hka2, _⟩
      · rcases mem_store_update heb with ⟨hmb, _⟩ | ⟨hkb2, _⟩
        · exact hab ea hma eb hmb hka hkb
        · exact absurd (hkb.symm.trans hkb2) hb.2
      · exact absurd (hka.symm.trans hka2) ha.2
    · intro a ha b hb ea hea eb heb hka hkb
      simp at ha hb
      subst hb
      rcases mem_store_update hea with ⟨hma, _⟩ | ⟨hka2, _⟩
      · rcases mem_store_update heb with ⟨_, hne⟩ | ⟨_, ht⟩
        · exact absurd hkb hne
        · rw [ht]; exact h.clock_ub ea hma
      · exact absurd (hka.symm.trans hka2) ha.2

theorem linked_remove {es : List (Entry K V)} {order : List K} {clock : Nat}
    (h : Linked es order clock) (victim : K) :
    Linked (store_remove es victim) (remove order victim) clock := by
  refine ⟨?_, ?_, ?_, ?_, ?_⟩
  · exact h.keys_nodup.sublist ((List.filter_sublist es).map _)
  · exact h.order_nodup.filter _
  · intro a
    have := h.order_keys a
    simp only [List.mem_map] at this
    simp only [remove, store_remove, List.mem_filter, List.mem_map, this]
    constructor
    · rintro ⟨⟨e, he, rfl⟩, hne⟩
      exact ⟨e, ⟨he, hne⟩, rfl⟩
    · rintro ⟨e, ⟨he, hne⟩, rfl⟩
      exact ⟨⟨e, he, rfl⟩, hne⟩
  · intro e he
    exact h.clock_ub e (List.mem_of_mem_filter he)
  · refine List.Pairwise.imp ?_ (h.order_sorted.filter _)
    intro a b hab ea hea eb heb hka hkb
    exact hab ea (List.mem_of_mem_filter hea) eb (List.mem_of_mem_filter heb) hka hkb

theorem linked_append {es : List (Entry K V)} {order : List K} {clock : Nat}
    (h : Linked es order clock) (k : K) (v : V)
    (hk : k ∉ es.map (fun e => e.key)) :
    Linked (es ++ [Entry.mk k v clock]) (order ++ [k]) (clock + 1) := by
  have hko : k ∉ order := fun hmem => hk ((h.order_keys k).1 hmem)
  refine ⟨?_, ?_, ?_, ?_, ?_⟩
  · rw [List.map_append, List.nodup_append]
    refine ⟨h.keys_nodup, List.nodup_singleton _, ?_⟩
    intro a ha hb
    simp at hb
    subst hb
    exact hk ha
  · rw [List.nodup_append]
    refine ⟨h.order_nodup, List.nodup_singleton _, ?_⟩
    intro a ha hb
    simp at hb
    subst hb
    exact hko ha
  · intro a
    simp [h.order_keys a]
  · intro e he
    simp at he
    rcases he with he | rfl
    · exact Nat.lt_succ_of_lt (h.clock_ub e he)
    · simp
  · rw [List.pairwise_append]
    refine ⟨?_, List.pairwise_singleton _ _, ?_⟩
    · refine List.Pairwise.imp_of_mem ?_ h.order_sorted
      intro a b ha hb hab ea hea eb heb hka hkb
      simp at hea heb
      rcases hea with hea | rfl
      · rcases heb with heb | rfl
        · exact hab ea hea eb heb hka hkb
        · exact absurd (by simpa [← hkb] using hb) hko
      · exact absurd (by simpa [← hka] using ha) hko
    · intro a ha b hb ea hea eb heb hka hkb
      simp at hb hea heb
      subst hb
      rcases hea with hea | rfl
      · rcases heb with heb | rfl
        · exact absurd (List.mem_map.2 ⟨eb, heb, hkb⟩) hk
        · exact h.clock_ub ea hea
      · exact absurd (by simpa [← hka] using ha) hko

theorem order_nonempty_of_full {c : Cache K V σ} (hinv : Inv c)
    (hfull : c.capacity ≤ c.entries.length) :
    ∃ victim rest, c.recency_order = victim :: rest := by
  have hpos : 0 < c.entries.length := Nat.lt_of_lt_of_le hinv.cap_pos hfull
  obtain ⟨e, he⟩ := List.exists_mem_of_length_pos hpos
  have hmem : e.key ∈ c.recency_order :=
    (hinv.linked.order_keys e.key).2 (List.mem_map.2 ⟨e, he, rfl⟩)
  cases hord : c.recency_order with
  | nil => rw [hord] at hmem; cases hmem
  | cons victim rest => exact ⟨victim, rest, rfl⟩

theorem insert_new_full (ch : Channel K V σ) {c : Cache K V σ} (k : K) (v : V)
    {victim : K} {rest : List K} (hord : c.recency_order = victim :: rest)
    (hfull : c.capacity ≤ c.entries.length) :
    insert_new ch c k v =
      (if (write_back ch c victim).1 then Except.ok () else Except.error Error.IOFailure,
        { c with
          entries := store_remove c.entries victim ++ [Entry.mk k v c.clock]
          recency_order := remove c.recency_order victim ++ [k]
          clock := c.clock + 1
          backing := (write_back ch c victim).2 }) := by
  simp [insert_new, hfull, hord, evict_candidate]

theorem insert_new_room (ch : Channel K V σ) {c : Cache K V σ} (k : K) (v : V)
    (hroom : ¬ c.capacity ≤ c.entries.length) :
    insert_new ch c k v =
      (Except.ok (),
        { c with
          entries := c.entries ++ [Entry.mk k v c.clock]
          recency_order := c.recency_order ++ [k]
          clock := c.clock + 1 }) := by
  simp [insert_new, hroom]

theorem store_remove_keys_not_mem {es : List (Entry K V)} {k : K} (victim : K)
    (hk : k ∉ es.map (fun e => e.key)) :
    k ∉ (store_remove es victim).map (fun e => e.key) := by
  intro h
  exact hk ((List.filter_sublist es).map _ |>.subset h)

theorem store_remove_length_lt {es : List (Entry K V)} {victim : K}
    (hv : victim ∈ es.map (fun e => e.key)) :
    (store_remove es victim).length < es.length := by
  obtain ⟨e, he, hk⟩ := List.mem_map.1 hv
  exact List.length_filter_lt_length_iff_exists.2 ⟨e, he, by simp [hk]⟩

/-- What `insert_new` does to a cache that satisfies the invariant and does
not hold the key: the invariant, the capacity and the façade state are kept,
and the key is found afterwards with the inserted value. -/
theorem insert_new_spec (ch : Channel K V σ) {c : Cache K V σ} (k : K) (v : V)
    (hinv : Inv c) (hk : k ∉ c.entries.map (fun e => e.key)) :
    Inv (insert_new ch c k v).2 ∧
    (insert_new ch c k v).2.capacity = c.capacity ∧
    (insert_new ch c k v).2.state = c.state ∧
    (insert_new ch c k v).1 ≠ Except.error Error.EmptyIndex ∧
    find (insert_new ch c k v).2.entries k = some (Entry.mk k v c.clock) := by
  by_cases hfull : c.capacity ≤ c.entries.length
  · obtain ⟨victim, rest, hord⟩ := order_nonempty_of_full hinv hfull
    rw [insert_new_full ch k v hord hfull]
    have hvk : victim ∈ c.entries.map (fun e => e.key) :=
      (hinv.linked.order_keys victim).1 (by rw [hord]; exact List.mem_cons_self _ _)
    have hk2 := store_remove_keys_not_mem victim hk
    refine ⟨⟨hinv.cap_pos, ?_, linked_append (linked_remove hinv.linked victim) k v hk2⟩,
      rfl, rfl, ?_, ?_⟩
    · have := store_remove_length_lt hvk
      have := hinv.size_le
      simp only [List.length_append, List.length_singleton]
      omega
    · split <;> simp
    · have hnone := (find_eq_none_iff _ k).2 hk2
      simp only [find] at hnone ⊢
      simp [List.find?_append, hnone]
  · rw [insert_new_room ch k v hfull]
    refine ⟨⟨hinv.cap_pos, ?_, linked_append hinv.linked k v hk⟩, rfl, rfl, by simp, ?_⟩
    · simp only [List.length_append, List.length_singleton]
      omega
    · have hnone := (find_eq_none_iff _ k).2 hk
      simp only [find] at hnone ⊢
      simp [List.find?_append, hnone]

theorem find_store_update {es : List (Entry K V)} {k : K} {e : Entry K V}
    (h : find es k = some e) (v : V) (t : Nat) :
    find (store_update es k (some v) t) k = some (Entry.mk k v t) := by
  have hk := (find_some_mem h).2
  simp only [find, store_update, List.find?_map] at h ⊢
  have hcomp : ((fun e : Entry K V => decide (e.key = k)) ∘ fun e : Entry K V =>
      if e.key = k then
        { key := e.key, value := (match some v with | some x => x | none => e.value),
          last_access := t }
      else e) = fun e : Entry K V => decide (e.key = k) := by
    funext x
    by_cases hx : x.key = k <;> simp [hx]
  rw [hcomp, h]
  simp [hk]

theorem inv_new_cache {cap : Int} {b : Option σ} {rt : Bool} {c0 : Cache K V σ}
    (hcap : 0 < cap) (hnew : new_cache cap b rt = Except.ok c0) :
    Inv c0 ∧ c0.capacity = cap.toNat ∧ c0.state = Phase.Active := by
  have hn : ¬ cap ≤ 0 := by omega
  simp only [new_cache, hn, if_false, Except.ok.injEq] at hnew
  subst hnew
  refine ⟨⟨?_, by simp, ⟨by simp, by simp, by simp, by simp, by simp⟩⟩, rfl, rfl⟩
  simp
  omega

theorem put_spec (ch : Channel K V σ) {c : Cache K V σ} (k : K) (v : V) (hinv : Inv c) :
    Inv (put ch c k v).2 ∧ (put ch c k v).2.capacity = c.capacity ∧
    (put ch c k v).2.state = c.state := by
  unfold put
  split
  · exact ⟨hinv, rfl, rfl⟩
  · split
    next e hf =>
      have hmem : k ∈ c.entries.map (fun e => e.key) :=
        List.mem_map.2 ⟨e, (find_some_mem hf).1, (find_some_mem hf).2⟩
      refine ⟨⟨hinv.cap_pos, ?_, linked_update hinv.linked k (some v) hmem⟩, rfl, rfl⟩
      simpa [store_update] using hinv.size_le
    next hf =>
      have hk := (find_eq_none_iff _ k).1 hf
      obtain ⟨h1, h2, h3, -, -⟩ := insert_new_spec ch k v hinv hk
      exact ⟨h1, h2, h3⟩

theorem get_spec (ch : Channel K V σ) {c : Cache K V σ} (k : K) (hinv : Inv c) :
    Inv (get ch c k).2 ∧ (get ch c k).2.capacity = c.capacity ∧
    (get ch c k).2.state = c.state := by
  unfold get
  split
  · exact ⟨hinv, rfl, rfl⟩
  · split
    next e hf =>
      have hmem : k ∈ c.entries.map (fun e => e.key) :=
        List.mem_map.2 ⟨e, (find_some_mem hf).1, (find_some_mem hf).2⟩
      refine ⟨⟨hinv.cap_pos, ?_, linked_update hinv.linked k none hmem⟩, rfl, rfl⟩
      simpa [store_update] using hinv.size_le
    next hf =>
      have hk := (find_eq_none_iff _ k).1 hf
      split
      next b hrt hb =>
        split
        next x b1 hr =>
          have hinv1 : Inv { c with backing := some b1 } :=
            ⟨hinv.cap_pos, hinv.size_le, hinv.linked⟩
          obtain ⟨h1, h2, h3, -, -⟩ := insert_new_spec ch k x hinv1 hk
          exact ⟨h1, h2, h3⟩
        next r b1 hr =>
          exact ⟨⟨hinv.cap_pos, hinv.size_le, hinv.linked⟩, rfl, rfl⟩
      next => exact ⟨hinv, rfl, rfl⟩

theorem flush_spec (ch : Channel K V σ) {c : Cache K V σ} (hinv : Inv c) :
    Inv (flush ch c).2 ∧ (flush ch c).2.capacity = c.capacity := by
  unfold flush
  cases c.state with
  | Closed => exact ⟨hinv, rfl⟩
  | Active =>
    cases c.backing with
    | none => exact ⟨hinv, rfl⟩
    | some b => exact ⟨⟨hinv.cap_pos, hinv.size_le, hinv.linked⟩, rfl⟩

theorem close_spec (ch : Channel K V σ) {c : Cache K V σ} (hinv : Inv c) :
    Inv (close ch c).2 ∧ (close ch c).2.capacity = c.capacity := by
  unfold close
  cases c.state with
  | Closed => exact ⟨hinv, rfl⟩
  | Active =>
    obtain ⟨h1, h2⟩ := flush_spec ch hinv
    exact ⟨⟨h1.cap_pos, h1.size_le, h1.linked⟩, h2⟩

theorem step_spec (ch : Channel K V σ) {c : Cache K V σ} (op : Op K V) (hinv : Inv c) :
    Inv (step ch c op) ∧ (step ch c op).capacity = c.capacity := by
  cases op with
  | put k v => exact ⟨(put_spec ch k v hinv).1, (put_spec ch k v hinv).2.1⟩
  | get k => exact ⟨(get_spec ch k hinv).1, (get_spec ch k hinv).2.1⟩
  | flush => exact flush_spec ch hinv
  | close => exact close_spec ch hinv

theorem run_spec (ch : Channel K V σ) (ops : List (Op K V)) :
    ∀ {c : Cache K V σ}, Inv c →
      Inv (run ch c ops) ∧ (run ch c ops).capacity = c.capacity := by
  induction ops with
  | nil => intro c hinv; exact ⟨hinv, rfl⟩
  | cons op ops ih =>
    intro c hinv
    obtain ⟨h1, h2⟩ := step_spec ch op hinv
    obtain ⟨h3, h4⟩ := ih h1
    exact ⟨h3, h4.trans h2⟩

theorem states_spec (ch : Channel K V σ) (ops : List (Op K V)) :
    ∀ {c : Cache K V σ}, Inv c →
      ∀ x ∈ states ch c ops, Inv x ∧ x.capacity = c.capacity := by
  induction ops with
  | nil =>
    intro c hinv x hx
    simp [states] at hx
    subst hx
    exact ⟨hinv, rfl⟩
  | cons op ops ih =>
    intro c hinv x hx
    simp only [states, List.mem_cons] at hx
    rcases hx with rfl | hx
    · exact ⟨hinv, rfl⟩
    · obtain ⟨h1, h2⟩ := step_spec ch op hinv
      obtain ⟨h3, h4⟩ := ih h1 x hx
      exact ⟨h3, h4.trans h2⟩

theorem get_hit (ch : Channel K V σ) {c : Cache K V σ} {k : K} {e : Entry K V}
    (hst : c.state = Phase.Active) (hf : find c.entries k = some e) :
    (get ch c k).1 = Except.ok e.value := by
  simp [get, hst, hf]

/-- C3: for every capacity above 0, every backing channel and read-through
setting and every sequence of put, get, flush and close calls on a cache
built with that capacity, every cache the sequence passes through holds at
most `capacity` entries. -/
theorem entries_never_exceed_capacity (ch : Channel K V σ) (cap : Int) (b : Option σ)
    (rt : Bool) (c0 : Cache K V σ) (hcap : 0 < cap)
    (hnew : new_cache cap b rt = Except.ok c0) (ops : List (Op K V)) :
    ∀ c ∈ states ch c0 ops, (c.entries.length : Int) ≤ cap ∧ (c.capacity : Int) = cap := by
  intro c hc
  obtain ⟨hinv0, hcap0, -⟩ := inv_new_cache hcap hnew
  obtain ⟨hinv, hcapc⟩ := states_spec ch ops hinv0 c hc
  have h1 := hinv.size_le
  rw [hcapc, hcap0] at h1
  rw [hcapc, hcap0]
  omega

/-- The witness of C3: capacity 2 and the calls put(a,1), put(b,2), get(a),
put(c,3). -/
theorem entries_never_exceed_capacity_witness :
    (0 : Int) < 2 ∧ new_cache 2 (some []) false = Except.ok cache2 ∧
    ∀ c ∈ states memChannel cache2 (scenario ++ [Op.put "c" 3]),
      (c.entries.length : Int) ≤ 2 ∧ (c.capacity : Int) = 2 :=
  ⟨by decide, rfl,
    entries_never_exceed_capacity memChannel 2 (some []) false cache2 (by decide) rfl _⟩

/-- C4: on every active cache reached from a cache built with a capacity
above 0, put(k, v) followed immediately by get(k) returns v. -/
theorem put_then_get_returns_value (ch : Channel K V σ) (cap : Int) (b : Option σ)
    (rt : Bool) (c0 : Cache K V σ) (hcap : 0 < cap)
    (hnew : new_cache cap b rt = Except.ok c0) (ops : List (Op K V)) (k : K) (v : V)
    (hact : (run ch c0 ops).state = Phase.Active) :
    (get ch (put ch (run ch c0 ops) k v).2 k).1 = Except.ok v := by
  obtain ⟨hinv0, -, -⟩ := inv_new_cache hcap hnew
  obtain ⟨hinv, -⟩ := run_spec ch ops hinv0
  generalize run ch c0 ops = c at hinv hact
  have hst := (put_spec ch k v hinv).2.2
  have hfind : find (put ch c k v).2.entries k = some (Entry.mk k v c.clock) := by
    unfold put
    rw [hact]
    simp only
    split
    next e hf => exact find_store_update hf v c.clock
    next hf => exact (insert_new_spec ch k v hinv ((find_eq_none_iff _ k).1 hf)).2.2.2.2
  exact get_hit ch (hst.trans hact) hfind

/-- The witness of C4: after put(a,1), put(b,2), get(a) on a cache of
capacity 2, put(c,3) followed by get(c) returns 3. -/
theorem put_then_get_returns_value_witness :
    (0 : Int) < 2 ∧ new_cache 2 (some []) false = Except.ok cache2 ∧
    (run memChannel cache2 scenario).state = Phase.Active ∧
    (get memChannel (put memChannel (run memChannel cache2 scenario) "c" 3).2 "c").1
      = Except.ok 3 :=
  ⟨by decide, rfl, by decide,
    put_then_get_returns_value memChannel 2 (some []) false cache2 (by decide) rfl
      scenario "c" 3 (by decide)⟩

/-- C5: when a put of a new key finds a reachable active cache full, the key
chosen by evict_candidate belongs to the entry whose last_access is strictly
the smallest among the current entries, and after the put the store holds
exactly the other entries and the new one. -/
theorem eviction_takes_least_recently_used (ch : Channel K V σ) (cap : Int)
    (b : Option σ) (rt : Bool) (c0 : Cache K V σ) (hcap : 0 < cap)
    (hnew : new_cache cap b rt = Except.ok c0) (ops : List (Op K V)) (k : K) (v : V)
    (hact : (run ch c0 ops).state = Phase.Active)
    (hfresh : k ∉ keys (run ch c0 ops))
    (hfull : (run ch c0 ops).entries.length = (run ch c0 ops).capacity) :
    ∃ ev ∈ (run ch c0 ops).entries,
      evict_candidate (run ch c0 ops).recency_order = Except.ok ev.key ∧
      (∀ e ∈ (run ch c0 ops).entries, e ≠ ev → ev.last_access < e.last_access) ∧
      (∀ e, e ∈ (put ch (run ch c0 ops) k v).2.entries ↔
        (e ∈ (run ch c0 ops).entries ∧ e ≠ ev) ∨ e = Entry.mk k v (run ch c0 ops).clock) ∧
      ev.key ∉ keys (put ch (run ch c0 ops) k v).2 := by
  obtain ⟨hinv0, -, -⟩ := inv_new_cache hcap hnew
  obtain ⟨hinv, -⟩ := run_spec ch ops hinv0
  generalize run ch c0 ops = c at hinv hact hfresh hfull
  obtain ⟨victim, rest, hord⟩ := order_nonempty_of_full hinv (Nat.le_of_eq hfull.symm)
  have hvk : victim ∈ c.entries.map (fun e => e.key) :=
    (hinv.linked.order_keys victim).1 (by rw [hord]; exact List.mem_cons_self _ _)
  obtain ⟨ev, hev, hevk⟩ := List.mem_map.1 hvk
  have hinj := List.inj_on_of_nodup_map hinv.linked.keys_nodup
  have hne : ∀ e ∈ c.entries, (e ≠ ev ↔ e.key ≠ victim) := by
    intro e he
    constructor
    · intro h1 h2
      exact h1 (hinj he hev (h2.trans hevk.symm))
    · intro h1 h2
      exact h1 (h2 ▸ hevk)
  have hput : (put ch c k v).2.entries
      = store_remove c.entries victim ++ [Entry.mk k v c.clock] := by
    have hf : find c.entries k = none := (find_eq_none_iff _ k).2 hfresh
    unfold put
    rw [hact]
    simp only [hf]
    rw [insert_new_full ch k v hord (Nat.le_of_eq hfull.symm)]
  have hkv : k ≠ victim := by
    intro h
    exact hfresh (h ▸ hvk)
  refine ⟨ev, hev, ?_, ?_, ?_, ?_⟩
  · rw [hord, hevk]; rfl
  · intro e he hee
    have hk1 : e.key ≠ victim := (hne e he).1 hee
    have hmem : e.key ∈ c.recency_order :=
      (hinv.linked.order_keys e.key).2 (List.mem_map.2 ⟨e, he, rfl⟩)
    rw [hord] at hmem
    have hrest : e.key ∈ rest := by
      rcases List.mem_cons.1 hmem with h | h
      · exact absurd h hk1
      · exact h
    have hsorted := hinv.linked.order_sorted
    rw [hord, List.pairwise_cons] at hsorted
    exact hsorted.1 e.key hrest ev hev e he hevk rfl
  · intro e
    rw [hput]
    simp only [List.mem_append, List.mem_singleton, store_remove, List.mem_filter,
      decide_eq_true_eq]
    constructor
    · rintro (⟨he, hk1⟩ | h)
      · exact Or.inl ⟨he, (hne e he).2 hk1⟩
      · exact Or.inr h
    · rintro (⟨he, hk1⟩ | h)
      · exact Or.inl ⟨he, (hne e he).1 hk1⟩
      · exact Or.inr h
  · rw [keys, hput, hevk]
    simp only [List.map_append, List.mem_append, List.mem_map, store_remove, List.mem_filter,
      decide_eq_true_eq, List.mem_singleton, not_or]
    constructor
    · rintro ⟨e, ⟨_, h1⟩, h2⟩
      exact h1 h2
    · rintro ⟨e, h1, h2⟩
      subst h1
      exact hkv h2

/-- The scenario of C5: with capacity 2, after put(a,1), put(b,2), get(a),
the call put(c,3) finds the cache full, evict_candidate is b, and afterwards
the store holds a and c and no longer b. -/
theorem eviction_takes_least_recently_used_witness :
    (run memChannel cache2 scenario).state = Phase.Active ∧
    "c" ∉ keys (run memChannel cache2 scenario) ∧
    (run memChannel cache2 scenario).entries.length = (run memChannel cache2 scenario).capacity ∧
    evict_candidate (run memChannel cache2 scenario).recency_order = Except.ok "b" ∧
    keys (put memChannel (run memChannel cache2 scenario) "c" 3).2 = ["a", "c"] ∧
    ∃ ev ∈ (run memChannel cache2 scenario).entries,
      evict_candidate (run memChannel cache2 scenario).recency_order = Except.ok ev.key ∧
      (∀ e ∈ (run memChannel cache2 scenario).entries, e ≠ ev →
        ev.last_access < e.last_access) ∧
      (∀ e, e ∈ (put memChannel (run memChannel cache2 scenario) "c" 3).2.entries ↔
        (e ∈ (run memChannel cache2 scenario).entries ∧ e ≠ ev) ∨
          e = Entry.mk "c" 3 (run memChannel cache2 scenario).clock) ∧
      ev.key ∉ keys (put memChannel (run memChannel cache2 scenario) "c" 3).2 :=
  ⟨by decide, by decide, by decide, rfl, by decide,
    eviction_takes_least_recently_used memChannel 2 (some []) false cache2 (by decide) rfl
      scenario "c" 3 (by decide) (by decide) (by decide)⟩

end LRU

end BasicLRU
